import Mathlib

/-!
Verification of the static-analysis and refactoring engine of `app.py`.

The program parses Python source with the external `ast` module, runs five
pattern detectors and two complexity estimators over the tree
(`analyze_code`), and rewrites the top-level empty-list/append idiom into a
list comprehension (`auto_refactor`).

The external parser, serializer (`ast.unparse` / `astor`) and formatter
(`black`) are black boxes per the program's design: we embed the engine as
functions over the parsed tree.  A parse outcome is `Except SyntaxErr Module`;
the engine's own fallible operations (unguarded list subscripts, which raise
`IndexError` in Python) are embedded in `Except`.
-/

namespace App

/-- Comparison operator kinds (`ast.cmpop`).  The detectors only distinguish
`ast.In`; the other kinds are kept as a closed remainder. -/
inductive CmpOpKind where
  | inOp
  | notInOp
  | eqOp
  | ltOp
  | otherCmp


/-- Binary / augmented-assignment operator kinds (`ast.operator`).  The
string-concat detector only distinguishes `ast.Add`. -/
inductive BinOpKind where
  | add
  | sub
  | mult
  | otherOp


mutual
/-- Python expression nodes (`ast.expr`), restricted to the node kinds the
engine inspects or traverses.  Every node carries its `lineno`. -/
inductive Expr where
  /-- Node `ast.Name` — a bare identifier. -/
  | name (lineno : Nat) (id : String)
  /-- Node `ast.Constant` — literals; the value is abstracted as its repr text. -/
  | constant (lineno : Nat) (value : String)
  /-- Node `ast.Call` — `func(args...)`. -/
  | call (lineno : Nat) (func : Expr) (args : List Expr)
  /-- Node `ast.Attribute` — `value.attr`. -/
  | attr (lineno : Nat) (value : Expr) (attrName : String)
  /-- Node `ast.List` — a list literal `[elts...]`. -/
  | listLit (lineno : Nat) (elts : List Expr)
  /-- Node `ast.ListComp` — `[elt for ...gens]`. -/
  | listComp (lineno : Nat) (elt : Expr) (gens : List Comp)
  /-- Node `ast.Compare` — `left ops[0] comparators[0] ops[1] comparators[1] ...`. -/
  | compare (lineno : Nat) (left : Expr) (ops : List CmpOpKind)
      (comparators : List Expr)
  /-- Node `ast.Subscript` — `value[slice]`. -/
  | subscript (lineno : Nat) (value : Expr) (slice : Expr)
  /-- Node `ast.BinOp` — `left op right`. -/
  | binOp (lineno : Nat) (left : Expr) (op : BinOpKind) (right : Expr)


/-- Node `ast.comprehension` — one `for target in iter if ifs...` clause of a
comprehension (no `lineno` attribute of its own in Python). -/
inductive Comp where
  | mk (target : Expr) (iter : Expr) (ifs : List Expr) (is_async : Nat)

end

mutual
/-- Python statement nodes (`ast.stmt`), restricted to the kinds the engine
inspects or traverses.  Every node carries its `lineno`. -/
inductive Stmt where
  /-- Node `ast.Assign` — `targets... = value`. -/
  | assign (lineno : Nat) (targets : List Expr) (value : Expr)
  /-- Node `ast.AugAssign` — `target op= value`. -/
  | augAssign (lineno : Nat) (target : Expr) (op : BinOpKind) (value : Expr)
  /-- Node `ast.For` — `for target in iter: body else: orelse`. -/
  | forStmt (lineno : Nat) (target : Expr) (iter : Expr)
      (body : List Stmt) (orelse : List Stmt)
  /-- Node `ast.While` — `while test: body else: orelse`. -/
  | whileStmt (lineno : Nat) (test : Expr) (body : List Stmt)
      (orelse : List Stmt)
  /-- Node `ast.If` — `if test: body else: orelse`. -/
  | ifStmt (lineno : Nat) (test : Expr) (body : List Stmt)
      (orelse : List Stmt)
  /-- Node `ast.FunctionDef` — `def name(...): body` (arguments abstracted). -/
  | functionDef (lineno : Nat) (defName : String) (body : List Stmt)
  /-- Node `ast.Expr` — an expression used as a statement. -/
  | exprStmt (lineno : Nat) (value : Expr)
  /-- Node `ast.Pass`. -/
  | passStmt (lineno : Nat)

end

/-- Node `ast.Module` — the root: a sequence of top-level statements. -/
abbrev Module := List Stmt

/-- A reference to one AST node, as enumerated by `ast.NodeVisitor`'s
traversal (statement or expression). -/
abbrev Node := Stmt ⊕ Expr

mutual
/-- All nodes of an expression in `ast.NodeVisitor` preorder (the node, then
its children in field order). -/
def nodesE : Expr → List Node
  | .name ln id => [.inr (.name ln id)]
  | .constant ln v => [.inr (.constant ln v)]
  | .call ln f args => .inr (.call ln f args) :: (nodesE f ++ nodesLE args)
  | .attr ln v a => .inr (.attr ln v a) :: nodesE v
  | .listLit ln elts => .inr (.listLit ln elts) :: nodesLE elts
  | .listComp ln elt gens =>
      .inr (.listComp ln elt gens) :: (nodesE elt ++ nodesLC gens)
  | .compare ln l ops cs =>
      .inr (.compare ln l ops cs) :: (nodesE l ++ nodesLE cs)
  | .subscript ln v s => .inr (.subscript ln v s) :: (nodesE v ++ nodesE s)
  | .binOp ln l op r => .inr (.binOp ln l op r) :: (nodesE l ++ nodesE r)

/-- All nodes of a list of expressions. -/
def nodesLE : List Expr → List Node
  | [] => []
  | e :: es => nodesE e ++ nodesLE es

/-- All nodes of a comprehension clause (target, iter, ifs). -/
def nodesC : Comp → List Node
  | .mk t it ifs _ => nodesE t ++ nodesE it ++ nodesLE ifs

/-- All nodes of a list of comprehension clauses. -/
def nodesLC : List Comp → List Node
  | [] => []
  | c :: cs => nodesC c ++ nodesLC cs
end

mutual
/-- All nodes of a statement in `ast.NodeVisitor` preorder. -/
def nodesS : Stmt → List Node
  | .assign ln tgts v =>
      .inl (.assign ln tgts v) :: (nodesLE tgts ++ nodesE v)
  | .augAssign ln t op v =>
      .inl (.augAssign ln t op v) :: (nodesE t ++ nodesE v)
  | .forStmt ln t it body orelse =>
      .inl (.forStmt ln t it body orelse) ::
        (nodesE t ++ nodesE it ++ nodesLS body ++ nodesLS orelse)
  | .whileStmt ln test body orelse =>
      .inl (.whileStmt ln test body orelse) ::
        (nodesE test ++ nodesLS body ++ nodesLS orelse)
  | .ifStmt ln test body orelse =>
      .inl (.ifStmt ln test body orelse) ::
        (nodesE test ++ nodesLS body ++ nodesLS orelse)
  | .functionDef ln n body =>
      .inl (.functionDef ln n body) :: nodesLS body
  | .exprStmt ln v => .inl (.exprStmt ln v) :: nodesE v
  | .passStmt ln => [.inl (.passStmt ln)]

/-- All nodes of a list of statements. -/
def nodesLS : List Stmt → List Node
  | [] => []
  | s :: ss => nodesS s ++ nodesLS ss
end

/-- All nodes of a module, in traversal order. -/
def nodesM (m : Module) : List Node := nodesLS m

/-! ## Detectors

Each Python detector is an `ast.NodeVisitor` subclass that overrides one
`visit_X` method and otherwise recurses with `generic_visit`, so it inspects
every node of the tree and appends zero or more results per node, in
traversal order.  We embed each as a `flatMap` of a per-node matcher over
`nodesM`. -/

/-- Per-node matcher of `find_string_concat_in_loops.V.visit_AugAssign`:
an `AugAssign` whose op is `Add` and whose target is a bare `Name`. -/
def stringConcatAt : Node → List (Nat × String)
  | .inl (.augAssign ln (.name _ id) .add _) => [(ln, id)]
  | _ => []

/-- Embeds `find_string_concat_in_loops(module)`. -/
def find_string_concat_in_loops (m : Module) : List (Nat × String) :=
  (nodesM m).flatMap stringConcatAt

/-- Per-node matcher of `find_list_append_patterns.V.visit_Call`: a `Call`
whose func is an `Attribute` named `append` on a bare `Name`. -/
def listAppendAt : Node → List (Nat × String)
  | .inr (.call ln (.attr _ (.name _ id) a) _) =>
      if a = "append" then [(ln, id)] else []
  | _ => []

/-- Embeds `find_list_append_patterns(module)`. -/
def find_list_append_patterns (m : Module) : List (Nat × String) :=
  (nodesM m).flatMap listAppendAt

/-- Per-node matcher of `find_range_len_patterns.V.visit_For`: a `For` whose
iterable is `range(len(name), ...)`.  The Python code guards each subscript
(`it.args and ...`, `it.args[0].args and ...`) by a non-emptiness test, which
the head patterns mirror. -/
def rangeLenAt : Node → List (Nat × String)
  | .inl (.forStmt ln _ (.call _ (.name _ f) args) _ _) =>
      if f = "range" then
        match args with
        | .call _ (.name _ g) innerArgs :: _ =>
            if g = "len" then
              match innerArgs with
              | .name _ id :: _ => [(ln, id)]
              | _ => []
            else []
        | _ => []
      else []
  | _ => []

/-- Embeds `find_range_len_patterns(module)`. -/
def find_range_len_patterns (m : Module) : List (Nat × String) :=
  (nodesM m).flatMap rangeLenAt

/-- Per-node matcher of `find_sorted_in_loops.V.visit_Call`: a `Call` whose
func is the bare name `sorted`, or whose func is an `Attribute` named
`sort` (the two `if`s are exclusive since a func is one node kind). -/
def sortedAt : Node → List Nat
  | .inr (.call ln (.name _ f) _) => if f = "sorted" then [ln] else []
  | .inr (.call ln (.attr _ _ a) _) => if a = "sort" then [ln] else []
  | _ => []

/-- Embeds `find_sorted_in_loops(module)`. -/
def find_sorted_in_loops (m : Module) : List Nat :=
  (nodesM m).flatMap sortedAt

/-- Per-node matcher of `detect_membership_of_list_in_loops.V.visit_Compare`:
for each `In` operator of a `Compare` node, report the node's line and the
id of `comparators[0]` when it is a bare `Name` (the guard
`node.comparators and isinstance(node.comparators[0], Name)` is mirrored by
the head pattern). -/
def membershipAt : Node → List (Nat × String)
  | .inl _ => []
  | .inr e =>
    match e with
    | .compare ln _ ops comparators =>
        ops.flatMap fun op =>
          match op, comparators with
          | .inOp, .name _ id :: _ => [(ln, id)]
          | _, _ => []
    | _ => []

/-- Embeds `detect_membership_of_list_in_loops(module)`. -/
def detect_membership_of_list_in_loops (m : Module) : List (Nat × String) :=
  (nodesM m).flatMap membershipAt

/-! ## Loop-nesting depth -/

mutual
/-- The `max_loop_nesting` visitor on one statement: the running maximum, over
all paths from this node, of the number of `For`/`While` nodes entered
(entering a loop increments the depth; the maximum is recorded).  Loop nodes
occur only among statements, so the traversal is over the statement
structure. -/
def maxLoopNestingS : Stmt → Nat
  | .assign _ _ _ => 0
  | .augAssign _ _ _ _ => 0
  | .forStmt _ _ _ body orelse =>
      1 + max (maxLoopNestingLS body) (maxLoopNestingLS orelse)
  | .whileStmt _ _ body orelse =>
      1 + max (maxLoopNestingLS body) (maxLoopNestingLS orelse)
  | .ifStmt _ _ body orelse =>
      max (maxLoopNestingLS body) (maxLoopNestingLS orelse)
  | .functionDef _ _ body => maxLoopNestingLS body
  | .exprStmt _ _ => 0
  | .passStmt _ => 0

/-- Maximum loop nesting over a statement list. -/
def maxLoopNestingLS : List Stmt → Nat
  | [] => 0
  | s :: ss => max (maxLoopNestingS s) (maxLoopNestingLS ss)
end

/-- Embeds `max_loop_nesting(node)` at the module root. -/
def max_loop_nesting (m : Module) : Nat := maxLoopNestingLS m

/-! ## Estimators -/

/-- The element part of Python's repr of a list of ints: elements joined
with `", "`. -/
def pyIntJoin : List Nat → String
  | [] => ""
  | [x] => toString x
  | x :: y :: rest => toString x ++ ", " ++ pyIntJoin (y :: rest)

/-- The text Python's f-string interpolation produces for a list of ints,
e.g. `[3, 5]`. -/
def pyIntListRepr (l : List Nat) : String :=
  "[" ++ pyIntJoin l ++ "]"

/-- Time details dict: `{"max_loop_nesting": ..., "sort_calls": ...}`. -/
structure TimeDetails where
  max_loop_nesting : Nat
  sort_calls : List Nat

/-- Embeds `estimate_time_complexity(module)` — summary string and details. -/
def estimate_time_complexity (m : Module) : String × TimeDetails :=
  let max_loops := max_loop_nesting m
  let sort_lines := find_sorted_in_loops m
  let time_est :=
    if max_loops = 0 then "O(n) or O(1) (no loops detected)"
    else if max_loops = 1 then "Heuristic: O(n) (one loop)."
    else "Heuristic: O(n^" ++ toString max_loops ++ ") (max loop nesting=" ++
      toString max_loops ++ ")"
  let time_est :=
    if sort_lines.isEmpty then time_est
    else time_est ++ " Sorting detected at lines " ++ pyIntListRepr sort_lines
      ++ " (O(n log n))."
  (time_est, ⟨max_loops, sort_lines⟩)

/-- Per-node matcher of `estimate_space_complexity.V.visit_ListComp`. -/
def listCompAt : Node → Nat
  | .inr (.listComp _ _ _) => 1
  | _ => 0

/-- Space details dict:
`{"list_comprehensions": ..., "list_appends": ...}`. -/
structure SpaceDetails where
  list_comprehensions : Nat
  list_appends : List (Nat × String)

/-- Embeds `estimate_space_complexity(module)` — summary string and details. -/
def estimate_space_complexity (m : Module) : String × SpaceDetails :=
  let appends := find_list_append_patterns m
  let comp_count := ((nodesM m).map listCompAt).sum
  let space_est :=
    if 0 < comp_count ∨ ¬ appends.isEmpty then
      "Heuristic: O(n) (building new containers)."
    else "Heuristic: O(1) (no major containers built)."
  (space_est, ⟨comp_count, appends⟩)

/-! ## Analyzer -/

/-- The data of a `SyntaxError` raised by the external `ast.parse`:
message, and the approximate location it reports. -/
structure SyntaxErr where
  msg : String
  errLineno : Nat

/-- CPython's `str(e)` for a `SyntaxError` from `ast.parse(code_str)` (no
filename argument): `"<msg> (<unknown>, line <n>)"`. -/
def SyntaxErr.str (e : SyntaxErr) : String :=
  e.msg ++ " (<unknown>, line " ++ toString e.errLineno ++ ")"

/-- A parse outcome at the external-parser boundary: the tree, or the
`SyntaxError` that `ast.parse` raised. -/
abbrev ParseResult := Except SyntaxErr Module

/-- One entry of the report's `detections` list.  The Python dicts carry one
kind-specific subject key (`variable`, `list_name`, `sequence`, `container`;
the sort entry has none), modeled as an optional key/value pair. -/
structure Detection where
  detType : String
  lineno : Nat
  subject : Option (String × String)
  suggestion : String

/-- The analysis report dict.  On parse failure only `ok` and `parse_error`
are present; on success `parse_error` is absent and the rest are present. -/
structure Report where
  ok : Bool
  parse_error : Option String
  time_estimate : Option String
  time_details : Option TimeDetails
  space_estimate : Option String
  space_details : Option SpaceDetails
  detections : Option (List Detection)

/-- The `detections` list `analyze_code` assembles, in its fixed order:
string-concat, list-append, range-len, membership, sort. -/
def buildDetections (m : Module) : List Detection :=
  ((find_string_concat_in_loops m).map fun (ln, v) =>
    ⟨"string_concat_in_loop", ln, some ("variable", v),
      "Use ''.join(...) instead of += in a loop."⟩) ++
  ((find_list_append_patterns m).map fun (ln, v) =>
    ⟨"list_append", ln, some ("list_name", v),
      "Consider using a list comprehension instead of append in loop."⟩) ++
  ((find_range_len_patterns m).map fun (ln, s) =>
    ⟨"range_len", ln, some ("sequence", s),
      "Use enumerate() instead of range(len(...))."⟩) ++
  ((detect_membership_of_list_in_loops m).map fun (ln, c) =>
    ⟨"membership_test", ln, some ("container", c),
      "Convert list to set for faster membership tests."⟩) ++
  ((find_sorted_in_loops m).map fun ln =>
    ⟨"sort_in_loop", ln, none,
      "Move sorting outside loop to avoid O(n log n) each iteration."⟩)

/-- Embeds `analyze_code(code_str)`, taken at the parse outcome of `code_str`:
on `SyntaxError` return `{"ok": False, "parse_error": str(e)}`; otherwise
run both estimators and all five detectors and assemble the report. -/
def analyze_code (p : ParseResult) : Report :=
  match p with
  | .error e => ⟨false, some e.str, none, none, none, none, none⟩
  | .ok m =>
      let te := estimate_time_complexity m
      let se := estimate_space_complexity m
      ⟨true, none, some te.1, some te.2, some se.1, some se.2,
        some (buildDetections m)⟩

/-! ## Refactor -/

/-- A Python exception escaping `auto_refactor`: the `SyntaxError` from
`ast.parse`, or the `IndexError` from the unguarded `call.args[0]`. -/
inductive PyErr where
  | syntaxError (e : SyntaxErr)
  | indexError

/-- The statement `Transformer.visit_Module` builds for a matched pair:
`varname = [elt for <fnode.target> in <fnode.iter>]`.  The new `Assign`,
`Name` and `ListComp` nodes have no location until
`ast.fix_missing_locations` fills them; at module level that gives them
line 1, which we build in directly. -/
def mkCompAssign (varname : String) (elt : Expr) (target : Expr)
    (iter : Expr) : Stmt :=
  .assign 1 [.name 1 varname]
    (.listComp 1 elt [.mk target iter [] 0])

/-- One cursor test of `Transformer.visit_Module`: does `cur` followed by
`nxt` match the empty-list-assignment / single-append-loop pair?
`none`: no match (keep `cur`, advance by one).  `some r`: matched; `r` is
the replacement statement, or the `IndexError` that `elt = call.args[0]`
raises when the append call has no arguments. -/
def matchPair (cur nxt : Stmt) : Option (Except PyErr Stmt) :=
  match cur with
  | .assign _ [.name _ varname] (.listLit _ []) =>
      match nxt with
      | .forStmt _ ftarget fiter fbody _ =>
          match fbody with
          | [.exprStmt _ (.call _ (.attr _ (.name _ recv) a) args)] =>
              if a = "append" ∧ recv = varname then
                match args with
                | [] => some (.error .indexError)
                | elt :: _ => some (.ok (mkCompAssign varname elt ftarget fiter))
              else none
          | _ => none
      | _ => none
  | _ => none

/-- The while-loop of `Transformer.visit_Module` over the module body:
at each cursor position, if the current statement and its successor match
the pair, emit the comprehension assignment and advance past both;
otherwise keep the current statement and advance by one. -/
def visit_Module : List Stmt → Except PyErr (List Stmt)
  | [] => .ok []
  | [s] => .ok [s]
  | a :: b :: rest =>
      match matchPair a b with
      | some (.ok s) =>
          match visit_Module rest with
          | .ok t => .ok (s :: t)
          | .error e => .error e
      | some (.error e) => .error e
      | none =>
          match visit_Module (b :: rest) with
          | .ok t => .ok (a :: t)
          | .error e => .error e

/-- Embeds `auto_refactor(code_str)`, taken at the parse outcome of `code_str`.
`ast.parse` failures propagate; the transformed module is handed to the
external serializer (`safe_unparse`) and the best-effort `black` formatter,
both outside the engine, so the result is the transformed tree. -/
def auto_refactor (p : ParseResult) : Except PyErr Module :=
  match p with
  | .error e => .error (.syntaxError e)
  | .ok m => visit_Module m

/-! ## Synthetic inputs and string-containment used to state the claims -/

/-- Substring containment, as character sequences. -/
def StrContains (pat s : String) : Prop := pat.data <:+: s.data

instance (pat s : String) : Decidable (StrContains pat s) :=
  List.decidableInfix pat.data s.data

/-- The synthetic input of spec property 2: `k` levels of lexically nested
for-loops and nothing else (`pass` innermost). -/
def nestedLoops : Nat → Module
  | 0 => [.passStmt 1]
  | k + 1 => [.forStmt 1 (.name 1 "i") (.name 1 "xs") (nestedLoops k) []]

/-- Boolean version of "Python `In` operator". -/
def isInOp : CmpOpKind → Bool
  | .inOp => true
  | _ => false

/-- Statements the cursor can consume as half of a candidate pair: a
single-target assignment of an empty list literal to a bare name (the
first half), or a for-loop whose entire body is exactly one expression
statement calling `name.append(...)` (the second half; its `orelse` is
never inspected by the matcher).  Every other statement — function
definitions, conditionals, while-loops, and for-loops of any other body
shape — is never consumed by the scan.  Note an empty-list assignment has
no nested block, and an append-body for-loop can host a nested idiom only
in its else-suite. -/
def isPairHalf : Stmt → Bool
  | .assign _ [.name _ _] (.listLit _ []) => true
  | .forStmt _ _ _ [.exprStmt _ (.call _ (.attr _ (.name _ _) a) _)] _ =>
      a = "append"
  | _ => false

/-- Is the statement an `ast.For` node? -/
def isForStmt : Stmt → Bool
  | .forStmt _ _ _ _ _ => true
  | _ => false

/-! ## Lemmas about the transformer's pair matcher -/

/-- The cursor test never matches when the following statement is not a
for-loop (`isinstance(node.body[i + 1], ast.For)` fails). -/
theorem matchPair_none_right (x y : Stmt) (h : isForStmt y = false) :
    matchPair x y = none := by
  rw [matchPair.eq_def]
  split
  · split
    · simp [isForStmt] at h
    · rfl
  · rfl

/-- A successful cursor match produces exactly the comprehension
assignment, and the matched statements are an assignment and a for-loop
with a single-statement body. -/
theorem matchPair_some_ok (x y : Stmt) (s : Stmt)
    (h : matchPair x y = some (.ok s)) :
    (∃ la l1 l2 v, x = .assign la [.name l1 v] (.listLit l2 [])) ∧
    (∃ lf t it le lc lat lrn recv args o,
      y = .forStmt lf t it
        [.exprStmt le (.call lc (.attr lat (.name lrn recv) "append") args)]
        o) ∧
    (∃ v elt t it, s = mkCompAssign v elt t it) := by
  rw [matchPair.eq_def] at h
  split at h
  · split at h
    · split at h
      · split at h
        · rename_i hcond
          split at h
          · exact absurd h (by simp)
          · simp only [Option.some.injEq, Except.ok.injEq] at h
            subst h
            obtain ⟨ha, hrecv⟩ := hcond
            subst ha
            exact ⟨⟨_, _, _, _, rfl⟩,
              ⟨_, _, _, _, _, _, _, _, _, _, rfl⟩, _, _, _, _, rfl⟩
        · exact absurd h (by simp)
      · exact absurd h (by simp)
    · exact absurd h (by simp)
  · exact absurd h (by simp)

/-- The comprehension assignment the transformer builds never itself starts
a new match (its value is a `ListComp`, not an empty list literal). -/
theorem matchPair_mkCompAssign (v : String) (elt t it : Expr) (y : Stmt) :
    matchPair (mkCompAssign v elt t it) y = none := rfl

/-- Scanning a body that splits before a non-for statement `c` processes the
two parts independently: the cursor can never consume the last statement
before `c` together with `c`, because a match requires the second statement
of the pair to be a for-loop. -/
theorem visit_Module_append (pre : List Stmt) (c : Stmt) (l2 : List Stmt)
    (hc : isForStmt c = false) :
    visit_Module (pre ++ c :: l2) =
      match visit_Module pre, visit_Module (c :: l2) with
      | .ok o1, .ok o2 => .ok (o1 ++ o2)
      | .error e, _ => .error e
      | .ok _, .error e => .error e := by
  match pre with
  | [] =>
      simp only [List.nil_append, visit_Module]
      cases visit_Module (c :: l2) <;> simp
  | [x] =>
      have hx : matchPair x c = none := matchPair_none_right x c hc
      simp only [List.cons_append, List.nil_append, visit_Module, hx]
      cases visit_Module (c :: l2) <;> simp [visit_Module]
  | x :: y :: pre2 =>
      have ih2 := visit_Module_append (y :: pre2) c l2 hc
      have ih1 := visit_Module_append pre2 c l2 hc
      simp only [List.cons_append, visit_Module, List.append_eq]
      cases hm : matchPair x y with
      | some r =>
          cases r with
          | ok s =>
              rw [ih1]
              cases visit_Module pre2 <;>
                cases visit_Module (c :: l2) <;> simp [visit_Module, hm]
          | error e => simp [visit_Module, hm]
      | none =>
          simp only [List.cons_append] at ih2
          rw [ih2]
          cases visit_Module (y :: pre2) <;>
            cases visit_Module (c :: l2) <;> simp [visit_Module, hm]

/-- C1: wherever the top-level statement sequence contains a single-target
assignment of an empty list literal to a bare name `v` immediately followed
by a for-loop whose entire body is the single statement `v.append(elt)`,
`auto_refactor` replaces the pair by the one statement
`v = [elt for target in iter]` and otherwise processes the surrounding
statements as before; the output is a well-formed tree (`Except.ok`), which
is what the external serializer re-renders as re-parseable source. -/
theorem refactor_rewrites_toplevel_pair
    (pre rest preOut t : List Stmt)
    (la l1 l2 lf lb lc lat lrn : Nat) (v : String)
    (elt target iter : Expr) (orelse : List Stmt)
    (hpre : visit_Module pre = .ok preOut)
    (hrest : visit_Module rest = .ok t) :
    auto_refactor (.ok (pre ++
      (.assign la [.name l1 v] (.listLit l2 []) ::
       .forStmt lf target iter
         [.exprStmt lb (.call lc (.attr lat (.name lrn v) "append") [elt])]
         orelse :: rest))) =
      .ok (preOut ++ mkCompAssign v elt target iter :: t) := by
  have hstep : visit_Module
      (Stmt.assign la [Expr.name l1 v] (Expr.listLit l2 []) ::
        Stmt.forStmt lf target iter
          [Stmt.exprStmt lb
            (Expr.call lc (Expr.attr lat (Expr.name lrn v) "append") [elt])]
          orelse :: rest) =
      .ok (mkCompAssign v elt target iter :: t) := by
    simp [visit_Module, matchPair, hrest]
  have happ := visit_Module_append pre
    (.assign la [.name l1 v] (.listLit l2 []))
    (Stmt.forStmt lf target iter
      [Stmt.exprStmt lb
        (Expr.call lc (Expr.attr lat (Expr.name lrn v) "append") [elt])]
      orelse :: rest) rfl
  simp only [auto_refactor]
  rw [happ, hpre, hstep]

/-- Witness for C1: the canonical example `result = []` followed by
`for x in items: result.append(f(x))`, standing alone, becomes the single
statement `result = [f(x) for x in items]`. -/
theorem refactor_rewrites_toplevel_pair_witness :
    auto_refactor (.ok
      [.assign 1 [.name 1 "result"] (.listLit 1 []),
       .forStmt 2 (.name 2 "x") (.name 2 "items")
         [.exprStmt 3 (.call 3 (.attr 3 (.name 3 "result") "append")
            [.call 3 (.name 3 "f") [.name 3 "x"]])] []]) =
      .ok [mkCompAssign "result" (.call 3 (.name 3 "f") [.name 3 "x"])
            (.name 2 "x") (.name 2 "items")] := by
  simpa using refactor_rewrites_toplevel_pair [] [] [] [] 1 1 1 2 3 3 3 3
    "result" (.call 3 (.name 3 "f") [.name 3 "x"]) (.name 2 "x")
    (.name 2 "items") [] rfl rfl

/-- C2 (the code violates it): on the syntactically valid input
`result = []` followed by `for x in items: result.append()`, the matcher
accepts the pair and then evaluates `call.args[0]` on an empty argument
list, so `auto_refactor` raises `IndexError` — a failure that is not a
propagated parse error. -/
theorem refactor_zero_arg_append_index_error :
    auto_refactor (.ok
      [.assign 1 [.name 1 "result"] (.listLit 1 []),
       .forStmt 2 (.name 2 "x") (.name 2 "items")
         [.exprStmt 3 (.call 3 (.attr 3 (.name 3 "result") "append") [])]
         []]) =
      .error .indexError := rfl

/-- C9: when the sole append call of a matched pair has two or more
arguments, the rewrite still happens and the comprehension element is the
first argument only; the remaining arguments do not occur in the result. -/
theorem refactor_uses_first_append_arg
    (la l1 l2 lf lb lc lat lrn : Nat) (v : String)
    (elt arg2 : Expr) (moreArgs : List Expr) (target iter : Expr)
    (orelse rest t : List Stmt)
    (hrest : visit_Module rest = .ok t) :
    auto_refactor (.ok
      (.assign la [.name l1 v] (.listLit l2 []) ::
       .forStmt lf target iter
         [.exprStmt lb (.call lc (.attr lat (.name lrn v) "append")
            (elt :: arg2 :: moreArgs))] orelse :: rest)) =
      .ok (mkCompAssign v elt target iter :: t) := by
  simp [auto_refactor, visit_Module, matchPair, hrest]

/-- Witness for C9: `result = []` followed by
`for x in items: result.append(x, y)` becomes
`result = [x for x in items]`, discarding `y`. -/
theorem refactor_uses_first_append_arg_witness :
    auto_refactor (.ok
      [.assign 1 [.name 1 "result"] (.listLit 1 []),
       .forStmt 2 (.name 2 "x") (.name 2 "items")
         [.exprStmt 3 (.call 3 (.attr 3 (.name 3 "result") "append")
            [.name 3 "x", .name 3 "y"])] []]) =
      .ok [mkCompAssign "result" (.name 3 "x") (.name 2 "x")
            (.name 2 "items")] :=
  refactor_uses_first_append_arg 1 1 1 2 3 3 3 3 "result" (.name 3 "x")
    (.name 3 "y") [] (.name 2 "x") (.name 2 "items") [] [] [] rfl

/-- C5 (the claim is false of the code on one case — see the
counterexample — and holds as amended): the transformer only rewrites
module-body statement pairs, and every top-level statement that is not
itself half of a candidate pair — in particular function definitions,
conditionals, while-loops, and for-loops of every body shape other than
the exact single-append body — appears in the output exactly as it was,
nested content included.  The one exception the code admits is a for-loop
whose body is the single matching append and whose else-suite hosts the
idiom: when preceded by the matching empty-list assignment it is consumed
and its else-suite (idiom included) is deleted. -/
theorem refactor_preserves_nested_blocks (l out : List Stmt) (s : Stmt)
    (h : visit_Module l = .ok out) (hs : s ∈ l)
    (hb : isPairHalf s = false) : s ∈ out := by
  match l with
  | [] => exact absurd hs (by simp)
  | [x] =>
      simp only [visit_Module, Except.ok.injEq] at h
      subst h
      exact hs
  | x :: y :: rest =>
      simp only [visit_Module] at h
      cases hm : matchPair x y with
      | some r =>
          rw [hm] at h
          cases r with
          | ok s0 =>
              cases hv : visit_Module rest with
              | ok t0 =>
                  rw [hv] at h
                  simp only [Except.ok.injEq] at h
                  subst h
                  rcases List.mem_cons.mp hs with hx | hs2
                  · obtain ⟨⟨la, l1, l2, v, hxa⟩, _, _⟩ := matchPair_some_ok x y s0 hm
                    rw [hx, hxa] at hb
                    simp [isPairHalf] at hb
                  · rcases List.mem_cons.mp hs2 with hy | hs3
                    · obtain ⟨_, ⟨lf, tg, it, le, lc, lat, lrn, recv, args, o, hyf⟩, _⟩ :=
                        matchPair_some_ok x y s0 hm
                      rw [hy, hyf] at hb
                      simp [isPairHalf] at hb
                    · exact List.mem_cons_of_mem _
                        (refactor_preserves_nested_blocks rest t0 s hv hs3 hb)
              | error e => rw [hv] at h; exact absurd h (by simp)
          | error e => exact absurd h (by simp)
      | none =>
          rw [hm] at h
          cases hv : visit_Module (y :: rest) with
          | ok t0 =>
              rw [hv] at h
              simp only [Except.ok.injEq] at h
              subst h
              rcases List.mem_cons.mp hs with hx | hs2
              · exact hx ▸ List.mem_cons_self _ _
              · exact List.mem_cons_of_mem _
                  (refactor_preserves_nested_blocks (y :: rest) t0 s hv hs2 hb)
          | error e => rw [hv] at h; exact absurd h (by simp)

/-- Witness for C5: a function definition whose body is exactly the append
idiom passes through the transformer untouched. -/
theorem refactor_preserves_nested_blocks_witness :
    visit_Module
      [Stmt.functionDef 1 "g"
        [.assign 2 [.name 2 "result"] (.listLit 2 []),
         .forStmt 3 (.name 3 "x") (.name 3 "items")
           [.exprStmt 4 (.call 4 (.attr 4 (.name 4 "result") "append")
              [.name 4 "x"])] []]] =
      .ok [Stmt.functionDef 1 "g"
        [.assign 2 [.name 2 "result"] (.listLit 2 []),
         .forStmt 3 (.name 3 "x") (.name 3 "items")
           [.exprStmt 4 (.call 4 (.attr 4 (.name 4 "result") "append")
              [.name 4 "x"])] []]] ∧
    Stmt.functionDef 1 "g"
      [.assign 2 [.name 2 "result"] (.listLit 2 []),
       .forStmt 3 (.name 3 "x") (.name 3 "items")
         [.exprStmt 4 (.call 4 (.attr 4 (.name 4 "result") "append")
            [.name 4 "x"])] []] ∈
      [Stmt.functionDef 1 "g"
        [.assign 2 [.name 2 "result"] (.listLit 2 []),
         .forStmt 3 (.name 3 "x") (.name 3 "items")
           [.exprStmt 4 (.call 4 (.attr 4 (.name 4 "result") "append")
              [.name 4 "x"])] []]] :=
  ⟨rfl, refactor_preserves_nested_blocks
    [Stmt.functionDef 1 "g"
      [.assign 2 [.name 2 "result"] (.listLit 2 []),
       .forStmt 3 (.name 3 "x") (.name 3 "items")
         [.exprStmt 4 (.call 4 (.attr 4 (.name 4 "result") "append")
            [.name 4 "x"])] []]]
    [Stmt.functionDef 1 "g"
      [.assign 2 [.name 2 "result"] (.listLit 2 []),
       .forStmt 3 (.name 3 "x") (.name 3 "items")
         [.exprStmt 4 (.call 4 (.attr 4 (.name 4 "result") "append")
            [.name 4 "x"])] []]]
    (Stmt.functionDef 1 "g"
      [.assign 2 [.name 2 "result"] (.listLit 2 []),
       .forStmt 3 (.name 3 "x") (.name 3 "items")
         [.exprStmt 4 (.call 4 (.attr 4 (.name 4 "result") "append")
            [.name 4 "x"])] []])
    rfl (by simp) rfl⟩

/-- Counterexample to C5 as stated: the matcher never inspects
`fnode.orelse`, so on the valid input
`result = []` / `for x in items: result.append(f(x))` /
`else: inner = [] ; for z in zs: inner.append(g(z))` the pair is consumed
and the rewrite deletes the whole else-suite — the nested idiom inside it
(which is not at module top level) is not left structurally unchanged: it
is absent from the output. -/
theorem refactor_for_else_deletes_nested_idiom :
    auto_refactor (.ok
      [.assign 1 [.name 1 "result"] (.listLit 1 []),
       .forStmt 2 (.name 2 "x") (.name 2 "items")
         [.exprStmt 3 (.call 3 (.attr 3 (.name 3 "result") "append")
            [.call 3 (.name 3 "f") [.name 3 "x"]])]
         [.assign 5 [.name 5 "inner"] (.listLit 5 []),
          .forStmt 6 (.name 6 "z") (.name 6 "zs")
            [.exprStmt 7 (.call 7 (.attr 7 (.name 7 "inner") "append")
               [.call 7 (.name 7 "g") [.name 7 "z"]])] []]]) =
      .ok [mkCompAssign "result" (.call 3 (.name 3 "f") [.name 3 "x"])
            (.name 2 "x") (.name 2 "items")] ∧
    Stmt.assign 5 [.name 5 "inner"] (.listLit 5 []) ∉
      [mkCompAssign "result" (.call 3 (.name 3 "f") [.name 3 "x"])
        (.name 2 "x") (.name 2 "items")] ∧
    Stmt.forStmt 6 (.name 6 "z") (.name 6 "zs")
        [.exprStmt 7 (.call 7 (.attr 7 (.name 7 "inner") "append")
           [.call 7 (.name 7 "g") [.name 7 "z"]])] [] ∉
      [mkCompAssign "result" (.call 3 (.name 3 "f") [.name 3 "x"])
        (.name 2 "x") (.name 2 "items")] := by
  refine ⟨rfl, ?_, ?_⟩ <;> simp [mkCompAssign]

/-- The first output statement of a scan over `b :: rest` is either `b`
itself or a freshly built comprehension assignment. -/
theorem visit_head_shape (b : Stmt) (rest out : List Stmt)
    (h : visit_Module (b :: rest) = .ok out) :
    (∃ t2, out = b :: t2) ∨
    (∃ v elt tg it t2, out = mkCompAssign v elt tg it :: t2) := by
  match rest with
  | [] =>
      simp only [visit_Module, Except.ok.injEq] at h
      exact .inl ⟨[], h.symm⟩
  | r :: rs =>
      simp only [visit_Module] at h
      cases hm : matchPair b r with
      | some q =>
          rw [hm] at h
          cases q with
          | ok s0 =>
              cases hv : visit_Module rs with
              | ok t0 =>
                  rw [hv] at h
                  simp only [Except.ok.injEq] at h
                  obtain ⟨_, _, v, elt, tg, it, hshape⟩ :=
                    matchPair_some_ok b r s0 hm
                  exact .inr ⟨v, elt, tg, it, t0, by rw [← h, hshape]⟩
              | error e => rw [hv] at h; exact absurd h (by simp)
          | error e => exact absurd h (by simp)
      | none =>
          rw [hm] at h
          cases hv : visit_Module (r :: rs) with
          | ok t0 =>
              rw [hv] at h
              simp only [Except.ok.injEq] at h
              exact .inl ⟨t0, h.symm⟩
          | error e => rw [hv] at h; exact absurd h (by simp)

/-- After one pass, no two adjacent output statements match the cursor
test. -/
theorem chain_of_visit (l out : List Stmt)
    (h : visit_Module l = .ok out) :
    List.Chain' (fun a b => matchPair a b = none) out := by
  match l with
  | [] =>
      simp only [visit_Module, Except.ok.injEq] at h
      subst h
      exact List.chain'_nil
  | [x] =>
      simp only [visit_Module, Except.ok.injEq] at h
      subst h
      exact List.chain'_singleton x
  | x :: y :: rest =>
      simp only [visit_Module] at h
      cases hm : matchPair x y with
      | some r =>
          rw [hm] at h
          cases r with
          | ok s0 =>
              cases hv : visit_Module rest with
              | ok t0 =>
                  rw [hv] at h
                  simp only [Except.ok.injEq] at h
                  subst h
                  refine List.chain'_cons'.mpr ⟨?_, chain_of_visit rest t0 hv⟩
                  intro z _
                  obtain ⟨_, _, v, elt, tg, it, hshape⟩ :=
                    matchPair_some_ok x y s0 hm
                  rw [hshape]
                  exact matchPair_mkCompAssign v elt tg it z
              | error e => rw [hv] at h; exact absurd h (by simp)
          | error e => exact absurd h (by simp)
      | none =>
          rw [hm] at h
          cases hv : visit_Module (y :: rest) with
          | ok t0 =>
              rw [hv] at h
              simp only [Except.ok.injEq] at h
              subst h
              refine List.chain'_cons'.mpr ⟨?_, chain_of_visit (y :: rest) t0 hv⟩
              intro z hz
              have hd := visit_head_shape y rest t0 hv
              rcases hd with ⟨t2, rfl⟩ | ⟨v, elt, tg, it, t2, rfl⟩
              · simp only [List.head?_cons, Option.mem_def, Option.some.injEq] at hz
                rw [← hz]
                exact hm
              · simp only [List.head?_cons, Option.mem_def, Option.some.injEq] at hz
                rw [← hz]
                exact matchPair_none_right x _ rfl
          | error e => rw [hv] at h; exact absurd h (by simp)

/-- A body in which no adjacent pair matches is a fixed point of the
scan. -/
theorem visit_of_chain (out : List Stmt)
    (h : List.Chain' (fun a b => matchPair a b = none) out) :
    visit_Module out = .ok out := by
  match out with
  | [] => rfl
  | [x] => rfl
  | a :: b :: rest =>
      have hab : matchPair a b = none := (List.chain'_cons.mp h).1
      have htail := visit_of_chain (b :: rest) (List.chain'_cons.mp h).2
      simp only [visit_Module, hab, htail]

/-- C6: `auto_refactor` is idempotent at the tree level: whenever one pass
succeeds, its output (which contains no remaining top-level
empty-list/append idiom) is a fixed point of a second pass.  Any textual
difference between the two passes can come only from the external
best-effort formatter. -/
theorem refactor_idempotent (m out : Module)
    (h : auto_refactor (.ok m) = .ok out) :
    auto_refactor (.ok out) = .ok out :=
  visit_of_chain out (chain_of_visit m out h)

/-- Witness for C6: re-refactoring the canonical rewritten output returns
it unchanged. -/
theorem refactor_idempotent_witness :
    auto_refactor (.ok [mkCompAssign "result"
      (.call 3 (.name 3 "f") [.name 3 "x"]) (.name 2 "x")
      (.name 2 "items")]) =
    .ok [mkCompAssign "result" (.call 3 (.name 3 "f") [.name 3 "x"])
      (.name 2 "x") (.name 2 "items")] :=
  refactor_idempotent
    [.assign 1 [.name 1 "result"] (.listLit 1 []),
     .forStmt 2 (.name 2 "x") (.name 2 "items")
       [.exprStmt 3 (.call 3 (.attr 3 (.name 3 "result") "append")
          [.call 3 (.name 3 "f") [.name 3 "x"]])] []] _ rfl

/-! ## String facts used by the estimator claims -/

/-- An append whose right part is a nonempty string is nonempty. -/
theorem str_append_ne_right (a b : String) (hb : b ≠ "") : a ++ b ≠ "" := by
  intro hc
  apply hb
  have hd := congrArg String.data hc
  rw [String.data_append] at hd
  exact String.ext (List.append_eq_nil.mp hd).2

/-- Containment extends over an append on the right. -/
theorem strContains_append_right (p l r : String) (h : StrContains p l) :
    StrContains p (l ++ r) := by
  obtain ⟨s, t, hst⟩ := h
  exact ⟨s, t ++ r.data, by rw [String.data_append, ← hst]; simp⟩

/-- Containment extends over an append on the left. -/
theorem strContains_append_left (p l r : String) (h : StrContains p r) :
    StrContains p (l ++ r) := by
  obtain ⟨s, t, hst⟩ := h
  exact ⟨l.data ++ s, t, by rw [String.data_append, ← hst]; simp⟩

/-- Every string contains itself. -/
theorem strContains_refl (p : String) : StrContains p p :=
  List.infix_refl p.data

/-- C3: on every parse failure, `analyze_code` returns a report whose only
populated fields are `ok = false` and a non-empty `parse_error`; the
estimates, details and detections are all absent. -/
theorem analyze_isolates_parse_failures (e : SyntaxErr) :
    analyze_code (.error e) =
      ⟨false, some e.str, none, none, none, none, none⟩ ∧ e.str ≠ "" := by
  refine ⟨rfl, ?_⟩
  have : (")" : String) ≠ "" := by decide
  exact str_append_ne_right _ _ this

/-- C4: `analyze_code` is total on parse outcomes: every parse failure is
caught and turned into the failure report, every parsed tree yields the
fully populated success report, and the estimators always produce a
(non-empty) classification. -/
theorem analyze_never_raises (p : ParseResult) :
    ((∃ e, p = .error e ∧
        analyze_code p = ⟨false, some e.str, none, none, none, none, none⟩) ∨
     (∃ m, p = .ok m ∧
        analyze_code p = ⟨true, none,
          some (estimate_time_complexity m).1,
          some (estimate_time_complexity m).2,
          some (estimate_space_complexity m).1,
          some (estimate_space_complexity m).2,
          some (buildDetections m)⟩)) ∧
    (∀ m : Module, (estimate_time_complexity m).1 ≠ "" ∧
      (estimate_space_complexity m).1 ≠ "") := by
  constructor
  · cases p with
    | error e => exact .inl ⟨e, rfl, rfl⟩
    | ok m => exact .inr ⟨m, rfl, rfl⟩
  · intro m
    constructor
    · simp only [estimate_time_complexity]
      split
      · split
        · decide
        · split
          · decide
          · exact str_append_ne_right _ _ (by decide)
      · exact str_append_ne_right _ _ (by decide)
    · simp only [estimate_space_complexity]
      split
      · decide
      · decide

/-- The membership detector's output for one `Compare` node whose first
comparand is a bare name: one entry per `In` operator, each naming the
first comparand. -/
theorem membershipAt_compare (ln : Nat) (left : Expr) (ops : List CmpOpKind)
    (lb : Nat) (b : String) (tail : List Expr) :
    membershipAt (.inr (.compare ln left ops (.name lb b :: tail))) =
      (ops.filter isInOp).map (fun _ => (ln, b)) := by
  simp only [membershipAt]
  induction ops with
  | nil => rfl
  | cons o os ih => cases o <;> simp_all [isInOp]

/-- Bare-name expressions contribute nothing to the membership detector. -/
theorem membership_names_empty (l : List (Nat × String)) :
    ((nodesLE (l.map fun p => Expr.name p.1 p.2)).flatMap membershipAt) =
      [] := by
  induction l with
  | nil => rfl
  | cons p ps ih => simp [nodesLE, nodesE, membershipAt, ih]

/-- Statement nodes contribute nothing to the membership detector. -/
theorem membershipAt_inl (s : Stmt) : membershipAt (.inl s) = [] := rfl

/-- Bare-name nodes contribute nothing to the membership detector. -/
theorem membershipAt_name (ln : Nat) (id : String) :
    membershipAt (.inr (.name ln id)) = [] := rfl

/-- C10: for a chained containment comparison whose first right-hand
comparand is the bare name `b`, the membership detector emits one finding
per `In` operator, and every finding names `b` (the first comparand), not
the operand to the right of the respective `In`. -/
theorem membership_chain_reports_first_comparand
    (le lc la lb : Nat) (a b : String) (ops : List CmpOpKind)
    (rest : List (Nat × String)) :
    detect_membership_of_list_in_loops
      [.exprStmt le (.compare lc (.name la a) ops
        (.name lb b :: rest.map fun p => Expr.name p.1 p.2))] =
      (ops.filter isInOp).map fun _ => (lc, b) := by
  simp only [detect_membership_of_list_in_loops, nodesM, nodesLS, nodesS,
    nodesE, nodesLE, List.flatMap_cons, List.flatMap_append,
    List.flatMap_nil, List.append_nil, List.nil_append, membershipAt_inl,
    membershipAt_name, membershipAt_compare, membership_names_empty]

/-- Witness for C10: `a in b in c` yields two findings, both naming `b`. -/
theorem membership_chain_reports_first_comparand_witness :
    detect_membership_of_list_in_loops
      [.exprStmt 2 (.compare 2 (.name 2 "a") [.inOp, .inOp]
        [.name 2 "b", .name 2 "c"])] = [(2, "b"), (2, "b")] := by
  have h := membership_chain_reports_first_comparand 2 2 2 2 "a" "b"
    [.inOp, .inOp] [(2, "c")]
  simpa using h

/-! ## Loop-nesting and sort-detection claims -/

/-- The value of `max_loop_nesting` on the `k`-fold nested loop is `k`. -/
theorem max_loop_nesting_nestedLoops (k : Nat) :
    max_loop_nesting (nestedLoops k) = k := by
  induction k with
  | zero => rfl
  | succ n ih =>
      simp only [max_loop_nesting] at ih
      simp [nestedLoops, max_loop_nesting, maxLoopNestingLS,
        maxLoopNestingS, ih]
      omega

/-- The `k`-fold nested loop contains no sort calls. -/
theorem find_sorted_nestedLoops (k : Nat) :
    find_sorted_in_loops (nestedLoops k) = [] := by
  induction k with
  | zero => rfl
  | succ n ih =>
      simp only [find_sorted_in_loops, nodesM] at ih
      simp [nestedLoops, find_sorted_in_loops, nodesM, nodesLS, nodesS,
        nodesE, sortedAt, ih]

/-- C7: on the synthetic input of `k` lexically nested loops and nothing
else, `analyze_code` reports `max_loop_nesting = k` and no sort calls, and
the time summary contains "O(n) or O(1)" for `k = 0`, "O(n)" for `k = 1`,
and "O(n^k)" for `k ≥ 2`. -/
theorem loop_nesting_classification (k : Nat) :
    (analyze_code (.ok (nestedLoops k))).time_details = some ⟨k, []⟩ ∧
    ∃ ts, (analyze_code (.ok (nestedLoops k))).time_estimate = some ts ∧
      (k = 0 → StrContains "O(n) or O(1)" ts) ∧
      (k = 1 → StrContains "O(n)" ts) ∧
      (2 ≤ k → StrContains ("O(n^" ++ toString k ++ ")") ts) := by
  have h1 := max_loop_nesting_nestedLoops k
  have h2 := find_sorted_nestedLoops k
  constructor
  · simp [analyze_code, estimate_time_complexity, h1, h2]
  · refine ⟨(estimate_time_complexity (nestedLoops k)).1, rfl, ?_, ?_, ?_⟩
    · intro hk
      subst hk
      simp only [estimate_time_complexity, h1, h2]
      decide
    · intro hk
      subst hk
      simp only [estimate_time_complexity, h1, h2]
      decide
    · intro hk
      have hk0 : k ≠ 0 := by omega
      have hk1 : k ≠ 1 := by omega
      simp only [estimate_time_complexity, h1, h2, if_neg hk0, if_neg hk1,
        List.isEmpty_nil, if_true]
      refine ⟨"Heuristic: ".data,
        (" (max loop nesting=" ++ toString k ++ ")").data, ?_⟩
      have e1 : ("Heuristic: O(n^" : String).data =
          ("Heuristic: " : String).data ++ ("O(n^" : String).data := rfl
      have e2 : (") (max loop nesting=" : String).data =
          (")" : String).data ++ (" (max loop nesting=" : String).data := rfl
      simp only [String.data_append, e1, e2, List.append_assoc]
      simp [List.cons_append, List.nil_append, List.append_assoc]

/-- Witness for C7: three nested loops give nesting depth 3 and a summary
containing "O(n^3)". -/
theorem loop_nesting_classification_witness :
    (analyze_code (.ok (nestedLoops 3))).time_details = some ⟨3, []⟩ ∧
    ∃ ts, (analyze_code (.ok (nestedLoops 3))).time_estimate = some ts ∧
      StrContains ("O(n^" ++ toString 3 ++ ")") ts := by
  obtain ⟨hd, ts, hts, _, _, h2⟩ := loop_nesting_classification 3
  exact ⟨hd, ts, hts, h2 (by omega)⟩

/-- Every element of a joined int list occurs in the joined text. -/
theorem pyIntJoin_contains (l : List Nat) (x : Nat) (hx : x ∈ l) :
    StrContains (toString x) (pyIntJoin l) := by
  match l with
  | [] => exact absurd hx (by simp)
  | [y] =>
      have : x = y := by simpa using hx
      subst this
      exact strContains_refl _
  | y :: z :: zs =>
      rcases List.mem_cons.mp hx with rfl | hx2
      · exact strContains_append_right _ _ _
          (strContains_append_right _ _ _ (strContains_refl _))
      · exact strContains_append_left _ _ _
          (pyIntJoin_contains (z :: zs) x hx2)

/-- C8: a free-function `sorted` call and a method-style `.sort` call each
produce one sort finding (one line number each, in order), and whenever a
line number is among the reported sort calls, the time summary string
contains that line number's text. -/
theorem sort_detection (lne la lx l2 lat lr le1 le2 : Nat)
    (xv rv : String) :
    find_sorted_in_loops
      [.exprStmt le1 (.call lne (.name la "sorted") [.name lx xv]),
       .exprStmt le2 (.call l2 (.attr lat (.name lr rv) "sort") [])] =
      [lne, l2] ∧
    (∀ (m : Module) (ln : Nat),
      ln ∈ (estimate_time_complexity m).2.sort_calls →
      StrContains (toString ln) (estimate_time_complexity m).1) := by
  constructor
  · simp [find_sorted_in_loops, nodesM, nodesLS, nodesS, nodesE, nodesLE,
      sortedAt]
  · intro m ln hln
    simp only [estimate_time_complexity] at hln ⊢
    have hne : (find_sorted_in_loops m).isEmpty = false := by
      cases hfs : find_sorted_in_loops m with
      | nil => rw [hfs] at hln; exact absurd hln (by simp)
      | cons a as => rfl
    rw [if_neg (by simp [hne])]
    apply strContains_append_right
    apply strContains_append_left
    rw [pyIntListRepr]
    apply strContains_append_right
    apply strContains_append_left
    exact pyIntJoin_contains _ ln hln

/-- Witness for C8: on a module with `sorted(xs)` at line 4 and
`ys.sort()` at line 7, the detector reports lines 4 and 7 and the summary
text contains "4". -/
theorem sort_detection_witness :
    find_sorted_in_loops
      [.exprStmt 4 (.call 4 (.name 4 "sorted") [.name 4 "xs"]),
       .exprStmt 7 (.call 7 (.attr 7 (.name 7 "ys") "sort") [])] =
      [4, 7] ∧
    StrContains (toString 4)
      (estimate_time_complexity
        [.exprStmt 4 (.call 4 (.name 4 "sorted") [.name 4 "xs"]),
         .exprStmt 7 (.call 7 (.attr 7 (.name 7 "ys") "sort") [])]).1 := by
  have h := sort_detection 4 4 4 7 7 7 4 7 "xs" "ys"
  refine ⟨h.1, h.2 _ 4 ?_⟩
  rw [estimate_time_complexity]
  simp only [h.1]
  exact List.mem_cons_self 4 [7]

end App
